import Mathlib

/-!
Shallow embedding of the `exesize-monkey` cluster-size suggestion tool.

The repository contains two variants of the analyzer:
* `src/lib/analyze.js` — tier-based recommender (`pickTier`, `recommendClusterSize`
  over total bytes and file count), embedded in namespace `Analyze`;
* the ES module (`src/unnamed/part_001`, imported by `src/bin/cluster-size.js` as
  `lib/analyze.js`) — median/percentile-based recommender and the traversal that
  collects file sizes, embedded in namespace `Median`;
* `src/bin/cluster-size.js` — the CLI argument loop, embedded in namespace `Cli`.

JavaScript numbers are modelled by `JsVal` (a rational, NaN, or a signed
infinity); arithmetic inside the library functions only ever happens on finite
values, where exact rational arithmetic models the computation.  Filesystem
state is modelled by the `Median.FsNode` tree: a node records exactly the
information the JS code can observe (`lstat`/dirent type, file size, whether a
`stat` or `readdir` call on it succeeds).
-/

/-- Model of a JavaScript number: a finite rational, `NaN`, or `±Infinity`. -/
inductive JsVal where
  | num (q : ℚ)
  | nan
  | posInf
  | negInf

/-- Model of `Number.isFinite`. -/
def JsVal.isFinite : JsVal → Bool
  | .num _ => true
  | _ => false

/-- Left-pad a digit string with zeros up to width `f`. -/
def padZeros (f : ℕ) (s : String) : String :=
  String.mk (List.replicate (f - s.length) '0') ++ s

/-- Model of `Number.prototype.toFixed` for non-negative finite values:
round to `f` decimal places, ties away from zero, and print with exactly
`f` digits after the decimal point. -/
def toFixed (x : ℚ) (f : ℕ) : String :=
  let n : ℕ := (⌊x * 10 ^ f + 1 / 2⌋).toNat
  if f = 0 then toString n
  else toString (n / 10 ^ f) ++ "." ++ padZeros f (toString (n % 10 ^ f))

/-- The `units` array of `formatBytes`. -/
def UNITS : List String := ["B", "KB", "MB", "GB", "TB", "PB"]

/-- The `while (value >= 1024 && unitIndex < units.length - 1)` loop of
`formatBytes`: repeatedly divide by 1024 and advance the unit index. -/
def fbGo (value : ℚ) (unitIndex : ℕ) : ℚ × ℕ :=
  if h : 1024 ≤ value ∧ unitIndex < UNITS.length - 1 then
    fbGo (value / 1024) (unitIndex + 1)
  else (value, unitIndex)
termination_by UNITS.length - 1 - unitIndex
decreasing_by
  have h6 : UNITS.length = 6 := rfl
  omega

/-- Function `formatBytes` (identical in `src/lib/analyze.js` and the ES module):
non-finite or non-positive input renders as `"0 B"`; otherwise the value is
scaled into the binary unit ladder and printed with 0/1/2 decimals depending
on magnitude. -/
def formatBytes (bytes : JsVal) : String :=
  match bytes with
  | .num b =>
    if b ≤ 0 then "0 B"
    else
      let r := fbGo b 0
      let formatted :=
        if 100 ≤ r.1 then toFixed r.1 0
        else if 10 ≤ r.1 then toFixed r.1 1
        else toFixed r.1 2
      formatted ++ " " ++ UNITS.getD r.2 "B"
  | _ => "0 B"

namespace Analyze

def KIB : ℚ := 1024
def MIB : ℚ := KIB * 1024
def GIB : ℚ := MIB * 1024
def TIB : ℚ := GIB * 1024

/-- A tier table entry; `limit = none` models the `Infinity` sentinel bound. -/
structure Tier where
  limit : Option ℚ
  label : String

def SIZE_TIERS : List Tier :=
  [⟨some (200 * MIB), "under 200 MB"⟩,
   ⟨some (1 * GIB), "200 MB to 1 GB"⟩,
   ⟨some (5 * GIB), "1 GB to 5 GB"⟩,
   ⟨some (20 * GIB), "5 GB to 20 GB"⟩,
   ⟨some (100 * GIB), "20 GB to 100 GB"⟩,
   ⟨some (500 * GIB), "100 GB to 500 GB"⟩,
   ⟨some (2 * TIB), "500 GB to 2 TB"⟩,
   ⟨none, "over 2 TB"⟩]

def FILE_TIERS : List Tier :=
  [⟨some 2000, "under 2k files"⟩,
   ⟨some 10000, "2k to 10k files"⟩,
   ⟨some 50000, "10k to 50k files"⟩,
   ⟨some 200000, "50k to 200k files"⟩,
   ⟨some 1000000, "200k to 1M files"⟩,
   ⟨some 5000000, "1M to 5M files"⟩,
   ⟨some 20000000, "5M to 20M files"⟩,
   ⟨none, "over 20M files"⟩]

def CLUSTER_SIZES : List ℕ := [1, 2, 3, 4, 6, 8, 12, 16]

/-- Test `value < tiers[i].limit`, where a finite value is always below `Infinity`. -/
def ltLimit (value : ℚ) : Option ℚ → Bool
  | none => true
  | some l => decide (value < l)

/-- The record returned by `pickTier`. -/
structure TierResult where
  index : ℕ
  label : String
  limit : Option ℚ

/-- Function `pickTier`: index of the first tier whose limit strictly exceeds the value;
falls back to the last tier when no limit does.  (The empty-table case never
arises; the JS code would index out of bounds there.) -/
def pickTier (value : ℚ) : List Tier → TierResult
  | [] => ⟨0, "", none⟩
  | t :: rest =>
    if ltLimit value t.limit then ⟨0, t.label, t.limit⟩
    else
      match rest with
      | [] => ⟨0, t.label, t.limit⟩
      | _ :: _ =>
        let r := pickTier value rest
        ⟨r.index + 1, r.label, r.limit⟩

/-- Decidable rendering of the documented tier-table invariant: non-empty,
sorted ascending by upper bound, with a final unbounded sentinel. -/
def limitLE : Option ℚ → Option ℚ → Bool
  | some a, some b => decide (a ≤ b)
  | _, none => true
  | none, some _ => false

def tierTableOk : List Tier → Bool
  | [] => false
  | [t] => t.limit.isNone
  | t1 :: t2 :: rest => limitLE t1.limit t2.limit && tierTableOk (t2 :: rest)

/-- The record returned by the tier-based `recommendClusterSize`. -/
structure TierRecommendation where
  clusterSize : ℕ
  score : ℕ
  sizeTier : TierResult
  fileTier : TierResult
  driver : String

/-- Tier-based `recommendClusterSize` from `src/lib/analyze.js`. -/
def recommendClusterSize (totalBytes fileCount : ℚ) : TierRecommendation :=
  let sizeTier := pickTier totalBytes SIZE_TIERS
  let fileTier := pickTier fileCount FILE_TIERS
  let score := max sizeTier.index fileTier.index
  let clusterSize := CLUSTER_SIZES.getD (min score (CLUSTER_SIZES.length - 1)) 0
  let driver :=
    if sizeTier.index = fileTier.index then "size and file count are equal"
    else if fileTier.index < sizeTier.index then "size drives the recommendation"
    else "file count drives the recommendation"
  ⟨clusterSize, score, sizeTier, fileTier, driver⟩

end Analyze

namespace Median

def KIB : ℚ := 1024
def MIB : ℚ := KIB * 1024

def CLUSTER_BYTES : List ℚ :=
  [4 * KIB, 8 * KIB, 16 * KIB, 32 * KIB, 64 * KIB, 128 * KIB, 256 * KIB,
   512 * KIB, 1 * MIB]

/-- Function `percentile(sortedValues, ratio)`: clamp the ratio to `[0, 1]` and linearly
interpolate between the two bracketing order statistics at fractional index
`(n - 1) * ratio`. -/
def percentile (sortedValues : List ℚ) (ratio : ℚ) : ℚ :=
  if sortedValues.length = 0 then 0
  else
    let clamped := min (max ratio 0) 1
    let index := ((sortedValues.length : ℚ) - 1) * clamped
    let lower := ⌊index⌋
    let upper := ⌈index⌉
    if lower = upper then sortedValues.getD lower.toNat 0
    else
      let weight := index - (lower : ℚ)
      sortedValues.getD lower.toNat 0 * (1 - weight) +
        sortedValues.getD upper.toNat 0 * weight

/-- The scan loop of `pickClusterIndex`: `i` is the current loop index.
`i - 1` on naturals is exactly `Math.max(0, i - 1)`. -/
def pickGo (value : ℚ) (i : ℕ) : List ℚ → ℕ
  | [] => CLUSTER_BYTES.length - 1
  | size :: rest =>
    if value = size then i
    else if value < size then i - 1
    else pickGo value (i + 1) rest

/-- Function `pickClusterIndex`: 0 for non-finite or non-positive values, otherwise the
bucket scan over `CLUSTER_BYTES`. -/
def pickClusterIndex (value : JsVal) : ℕ :=
  match value with
  | .num v => if v ≤ 0 then 0 else pickGo v 0 CLUSTER_BYTES
  | _ => 0

/-- The `range` object of the median-based recommendation. -/
structure ClusterRange where
  lowBytes : ℚ
  highBytes : ℚ
  lowIndex : ℕ
  highIndex : ℕ

/-- The record returned by the median-based `recommendClusterSize`. -/
structure Recommendation where
  clusterBytes : ℚ
  clusterIndex : ℕ
  medianBytes : ℚ
  p25Bytes : ℚ
  p75Bytes : ℚ
  range : Option ClusterRange
  driver : String

/-- Median-based `recommendClusterSize` from the ES module. -/
def recommendClusterSize (medianBytes p25Bytes p75Bytes : ℚ) : Recommendation :=
  let clusterIndex := pickClusterIndex (.num medianBytes)
  let clusterBytes := CLUSTER_BYTES.getD clusterIndex 0
  let range : Option ClusterRange :=
    if 0 < p25Bytes ∧ 0 < p75Bytes ∧ 4 ≤ p75Bytes / p25Bytes then
      let lowIndex := pickClusterIndex (.num p25Bytes)
      let highIndex := pickClusterIndex (.num p75Bytes)
      if lowIndex ≠ highIndex then
        some ⟨CLUSTER_BYTES.getD lowIndex 0, CLUSTER_BYTES.getD highIndex 0,
          lowIndex, highIndex⟩
      else none
    else none
  ⟨clusterBytes, clusterIndex, medianBytes, p25Bytes, p75Bytes, range,
    "median file size drives cluster size recommendation."⟩

/-- Model of a filesystem node as observable by the analyzer:
* `file size statOk` — a regular file; `statOk = false` means the
  `fs.promises.stat` call on it fails;
* `dir entries readable` — a directory with named children; `readable = false`
  means `fs.promises.readdir` on it fails;
* `symlink` — a symbolic link (never followed);
* `other` — any other node kind (socket, FIFO, device). -/
inductive FsNode where
  | file (size : ℚ) (statOk : Bool)
  | dir (entries : List (String × FsNode)) (readable : Bool)
  | symlink
  | other

/-- The `stats` accumulator of `analyzeTarget`. -/
structure ScanStats where
  targetPath : String
  fileCount : ℕ
  dirCount : ℕ
  totalBytes : ℚ
  medianBytes : ℚ
  p25Bytes : ℚ
  p75Bytes : ℚ
  largestFileBytes : ℚ
  largestFilePath : String
  skippedSymlinks : ℕ
  unreadableEntries : ℕ

/-- The two errors `analyzeTarget` can throw. -/
inductive AnalyzeError where
  | targetNotFound (path : String)
  | invalidTargetType

def initStats (targetPath : String) : ScanStats :=
  ⟨targetPath, 0, 0, 0, 0, 0, 0, 0, "", 0, 0⟩

/-- Result of processing one directory's entry list: updated stats, the
collected `fileSizes` array, and the subdirectories pushed for later
traversal (in entry order). -/
structure EntriesResult where
  stats : ScanStats
  sizes : List ℚ
  pending : List (String × FsNode)

/-- The `for (const entry of entries)` loop body of `analyzeTarget`:
symlinks are counted and skipped, subdirectories are queued, files are
stat'ed (a failing stat increments `unreadableEntries`) and folded into the
counters, the byte list and the largest-file tracking; any other entry kind
falls through untouched. -/
def walkEntries (dirPath : String) :
    List (String × FsNode) → ScanStats → List ℚ → EntriesResult
  | [], s, sizes => ⟨s, sizes, []⟩
  | (name, n) :: rest, s, sizes =>
    match n with
    | .symlink =>
      walkEntries dirPath rest
        { s with skippedSymlinks := s.skippedSymlinks + 1 } sizes
    | .dir es readable =>
      let r := walkEntries dirPath rest s sizes
      ⟨r.stats, r.sizes, (dirPath ++ "/" ++ name, FsNode.dir es readable) :: r.pending⟩
    | .file size true =>
      walkEntries dirPath rest
        { s with
          fileCount := s.fileCount + 1,
          totalBytes := s.totalBytes + size,
          largestFileBytes := if s.largestFileBytes < size then size else s.largestFileBytes,
          largestFilePath :=
            if s.largestFileBytes < size then dirPath ++ "/" ++ name
            else s.largestFilePath }
        (sizes ++ [size])
    | .file _ false =>
      walkEntries dirPath rest
        { s with unreadableEntries := s.unreadableEntries + 1 } sizes
    | .other => walkEntries dirPath rest s sizes

/-- Weight of an entry list, used as the termination measure of the stack
loop: every node weighs 1 plus the weight of a directory's entries. -/
def entriesWeight : List (String × FsNode) → ℕ
  | [] => 0
  | (_, .dir es _) :: rest => 1 + entriesWeight es + entriesWeight rest
  | _ :: rest => 1 + entriesWeight rest

def stackWeight : List (String × FsNode) → ℕ
  | [] => 0
  | (_, .dir es _) :: rest => 1 + entriesWeight es + stackWeight rest
  | _ :: rest => 1 + stackWeight rest

/-- The `while (stack.length > 0)` loop of `analyzeTarget`: pop a pending
directory, count it, list it (a failure increments `unreadableEntries` and
skips its subtree), process its entries, and push the collected
subdirectories so that the last one is popped first, as `Array.pop` does. -/
def walk : List (String × FsNode) → ScanStats → List ℚ → ScanStats × List ℚ
  | [], s, sizes => (s, sizes)
  | (p, n) :: rest, s, sizes =>
    let s1 := { s with dirCount := s.dirCount + 1 }
    match n with
    | .dir entries true =>
      let r := walkEntries p entries s1 sizes
      walk (r.pending.reverse ++ rest) r.stats r.sizes
    | _ =>
      walk rest { s1 with unreadableEntries := s1.unreadableEntries + 1 } sizes
termination_by stack _ _ => stackWeight stack
decreasing_by
  · have happ : ∀ a b : List (String × FsNode),
        stackWeight (a ++ b) = stackWeight a + stackWeight b := by
      intro a b
      induction a with
      | nil => simp [stackWeight]
      | cons e a ih =>
        obtain ⟨q, m⟩ := e
        cases m <;> simp [stackWeight, ih] <;> omega
    have hrev : ∀ l : List (String × FsNode),
        stackWeight l.reverse = stackWeight l := by
      intro l
      induction l with
      | nil => rfl
      | cons e l ih =>
        obtain ⟨q, m⟩ := e
        cases m <;>
          simp [List.reverse_cons, happ, stackWeight, ih] <;> omega
    have hpw : ∀ (es : List (String × FsNode)) (s0 : ScanStats) (sz : List ℚ),
        stackWeight (walkEntries name es s0 sz).pending ≤ entriesWeight es := by
      intro es
      induction es with
      | nil => intro s0 sz; simp [walkEntries, stackWeight]
      | cons e tail ih =>
        intro s0 sz
        obtain ⟨nm, m⟩ := e
        cases m with
        | file size statOk =>
          cases statOk with
          | true =>
            simp only [walkEntries]
            exact le_trans (ih _ _) (by simp [entriesWeight])
          | false =>
            simp only [walkEntries]
            exact le_trans (ih _ _) (by simp [entriesWeight])
        | dir es2 readable =>
          simp only [walkEntries, stackWeight, entriesWeight]
          have := ih s0 sz
          omega
        | symlink =>
          simp only [walkEntries]
          exact le_trans (ih _ _) (by simp [entriesWeight])
        | other =>
          simp only [walkEntries]
          exact le_trans (ih _ _) (by simp [entriesWeight])
    rw [happ, hrev]
    simp only [stackWeight]
    have h1 := hpw entries { s with dirCount := s.dirCount + 1 } sizes
    omega
  · have hlt : ∀ (m : FsNode) (q : String) (r : List (String × FsNode)),
        stackWeight r < stackWeight ((q, m) :: r) := by
      intro m q r
      cases m <;> simp [stackWeight]
    exact hlt _ _ _

/-- Function `analyzeTarget` from the ES module (the `src/lib/analyze.js` variant is
the same function without the `fileSizes`/percentile post-processing): the
root is `lstat`'ed (`none` models a failing lookup), symlink and file roots
return immediately, non-file/dir/symlink roots raise, and directory roots are
traversed iteratively; when any sizes were collected they are sorted and the
median/quartiles computed. -/
def analyzeTarget (targetPath : String) (root : Option FsNode) :
    Except AnalyzeError ScanStats :=
  let stats := initStats targetPath
  match root with
  | none => .error (.targetNotFound targetPath)
  | some rootStat =>
    match rootStat with
    | .symlink => .ok { stats with skippedSymlinks := stats.skippedSymlinks + 1 }
    | .file size _ =>
      .ok { stats with
        fileCount := 1, totalBytes := size, medianBytes := size,
        p25Bytes := size, p75Bytes := size, largestFileBytes := size,
        largestFilePath := targetPath }
    | .other => .error .invalidTargetType
    | .dir entries readable =>
      let r := walk [(targetPath, FsNode.dir entries readable)] stats []
      if 0 < r.2.length then
        let sorted := r.2.mergeSort (fun a b => decide (a ≤ b))
        .ok { r.1 with
          medianBytes := percentile sorted (1 / 2),
          p25Bytes := percentile sorted (1 / 4),
          p75Bytes := percentile sorted (3 / 4) }
      else .ok r.1

/-- The `Largest file:` output line of `src/bin/cluster-size.js`: an empty
`largestFilePath` is falsy in JS and prints `N/A`. -/
def largestFileLine (s : ScanStats) : String :=
  if s.largestFilePath = "" then "Largest file: N/A"
  else "Largest file: " ++ formatBytes (.num s.largestFileBytes) ++
    " (" ++ s.largestFilePath ++ ")"

/-! Specification-side aggregates over an `FsNode` tree.  `entriesSizes`
lists the sizes of all stat-able files reachable from an entry list through
readable directories; the other functions count symlinks, absorbed
filesystem errors, and popped directories. -/

/-- Sizes of all reachable stat-able files below an entry list. -/
def entriesSizes : List (String × FsNode) → List ℚ
  | [] => []
  | (_, .dir es true) :: rest => entriesSizes es ++ entriesSizes rest
  | (_, .file size true) :: rest => size :: entriesSizes rest
  | _ :: rest => entriesSizes rest

/-- Number of symlink entries reachable below an entry list. -/
def entriesSyms : List (String × FsNode) → ℕ
  | [] => 0
  | (_, .dir es true) :: rest => entriesSyms es + entriesSyms rest
  | (_, .symlink) :: rest => 1 + entriesSyms rest
  | _ :: rest => entriesSyms rest

/-- Number of absorbed filesystem errors (failed `stat`s and unreadable
directories) reachable below an entry list. -/
def entriesFails : List (String × FsNode) → ℕ
  | [] => 0
  | (_, .dir es true) :: rest => entriesFails es + entriesFails rest
  | (_, .dir _ false) :: rest => 1 + entriesFails rest
  | (_, .file _ false) :: rest => 1 + entriesFails rest
  | _ :: rest => entriesFails rest

/-- Number of directories that get popped from the stack below an entry
list (readable and unreadable alike). -/
def entriesDirs : List (String × FsNode) → ℕ
  | [] => 0
  | (_, .dir es true) :: rest => 1 + entriesDirs es + entriesDirs rest
  | (_, .dir _ false) :: rest => 1 + entriesDirs rest
  | _ :: rest => entriesDirs rest

/-- Absorbed errors at the root of a traversal: a failing `readdir` on the
root directory counts 1; file, symlink and readable-directory roots
contribute the errors inside the tree. -/
def rootFails : FsNode → ℕ
  | .dir es true => entriesFails es
  | .dir _ false => 1
  | _ => 0

/-! The same aggregates for a whole traversal stack. -/

def elemSizes : String × FsNode → List ℚ
  | (_, .dir es true) => entriesSizes es
  | _ => []

def elemSyms : String × FsNode → ℕ
  | (_, .dir es true) => entriesSyms es
  | _ => 0

def elemFails : String × FsNode → ℕ
  | (_, .dir es true) => entriesFails es
  | _ => 1

def elemDirs : String × FsNode → ℕ
  | (_, .dir es true) => 1 + entriesDirs es
  | _ => 1

def stackSizes (l : List (String × FsNode)) : List ℚ := (l.map elemSizes).flatten

def stackSyms (l : List (String × FsNode)) : ℕ := (l.map elemSyms).sum

def stackFails (l : List (String × FsNode)) : ℕ := (l.map elemFails).sum

def stackDirs (l : List (String × FsNode)) : ℕ := (l.map elemDirs).sum

/-! Shallow (single-directory) aggregates, describing one run of the entry
loop: files and symlinks directly in the directory, and the pending
subdirectory list it produces. -/

def shallowSizes (l : List (String × FsNode)) : List ℚ :=
  (l.map fun e =>
    match e.2 with
    | .file size true => [size]
    | _ => []).flatten

def shallowSyms (l : List (String × FsNode)) : ℕ :=
  (l.map fun e =>
    match e.2 with
    | .symlink => 1
    | _ => 0).sum

def shallowFails (l : List (String × FsNode)) : ℕ :=
  (l.map fun e =>
    match e.2 with
    | .file _ false => 1
    | _ => 0).sum

def pendingOf (dirPath : String) (l : List (String × FsNode)) :
    List (String × FsNode) :=
  (l.map fun e =>
    match e.2 with
    | .dir es readable => [(dirPath ++ "/" ++ e.1, FsNode.dir es readable)]
    | _ => []).flatten

end Median

namespace Cli

/-- Model of `String.prototype.startsWith`. -/
def jsStartsWith (s pat : String) : Bool := pat.data.isPrefixOf s.data

/-- Observable outcome of the argument loop of `src/bin/cluster-size.js`:
`help` prints usage and exits 0, `errorUnknown` prints
`Unknown option(s): …` to standard error and exits 1, `run target` proceeds
to analyze `target` (defaulting to the current directory when `none`). -/
inductive CliOutcome where
  | help
  | errorUnknown (opts : List String)
  | run (target : Option String)
deriving DecidableEq

/-- The `for (const arg of args)` loop plus the trailing
`unknownOptions.length > 0` check. -/
def parseLoop : List String → Option String → Bool → List String → CliOutcome
  | [], targetArg, _, unknownOptions =>
    if unknownOptions.length > 0 then .errorUnknown unknownOptions
    else .run targetArg
  | arg :: rest, targetArg, afterDoubleDash, unknownOptions =>
    if afterDoubleDash then
      parseLoop rest (if targetArg = none then some arg else targetArg)
        afterDoubleDash unknownOptions
    else if arg = "--" then parseLoop rest targetArg true unknownOptions
    else if arg = "-h" ∨ arg = "--help" then .help
    else if jsStartsWith arg "-" then
      parseLoop rest targetArg afterDoubleDash (unknownOptions ++ [arg])
    else
      parseLoop rest (if targetArg = none then some arg else targetArg)
        afterDoubleDash unknownOptions

def parseArgs (args : List String) : CliOutcome := parseLoop args none false []

end Cli

/-! ### Tier-based recommender: C4 and C5 -/

theorem pickTier_index_mono (v1 v2 : ℚ) (h : v1 ≤ v2) :
    ∀ tiers : List Analyze.Tier,
    (Analyze.pickTier v1 tiers).index ≤ (Analyze.pickTier v2 tiers).index := by
  intro tiers
  induction tiers with
  | nil => simp [Analyze.pickTier]
  | cons t rest ih =>
    by_cases h1 : Analyze.ltLimit v1 t.limit = true
    · simp [Analyze.pickTier, h1]
    · have h2 : Analyze.ltLimit v2 t.limit = false := by
        cases hl : t.limit with
        | none => rw [hl] at h1; simp [Analyze.ltLimit] at h1
        | some l =>
          rw [hl] at h1
          simp only [Analyze.ltLimit, decide_eq_true_eq] at h1 ⊢
          simp only [decide_eq_false_iff_not]
          intro hc
          exact h1 (lt_of_le_of_lt h hc)
      rw [Bool.not_eq_true] at h1
      cases rest with
      | nil => simp [Analyze.pickTier, h1, h2]
      | cons t2 rest2 =>
        simp only [Analyze.pickTier, h1, h2, Bool.false_eq_true, if_false]
        exact Nat.succ_le_succ ih

/-- C5: `pickTier` is monotonic — for any tier table that is sorted ascending
by upper bound with a final unbounded sentinel, and any two values
`v1 ≤ v2`, the tier index returned for `v1` is at most the one for `v2`. -/
theorem C5_pickTier_monotone (tiers : List Analyze.Tier) (v1 v2 : ℚ)
    (htable : Analyze.tierTableOk tiers = true) (h12 : v1 ≤ v2) :
    (Analyze.pickTier v1 tiers).index ≤ (Analyze.pickTier v2 tiers).index :=
  pickTier_index_mono v1 v2 h12 tiers

theorem C5_pickTier_monotone_witness :
    Analyze.tierTableOk Analyze.SIZE_TIERS = true ∧ (0 : ℚ) ≤ 10 ^ 13 ∧
    (Analyze.pickTier 0 Analyze.SIZE_TIERS).index ≤
      (Analyze.pickTier (10 ^ 13) Analyze.SIZE_TIERS).index := by
  refine ⟨?_, by norm_num, ?_⟩
  · norm_num [Analyze.tierTableOk, Analyze.limitLE, Analyze.SIZE_TIERS,
      Analyze.MIB, Analyze.GIB, Analyze.TIB, Analyze.KIB]
  · exact C5_pickTier_monotone Analyze.SIZE_TIERS 0 (10 ^ 13)
      (by norm_num [Analyze.tierTableOk, Analyze.limitLE, Analyze.SIZE_TIERS,
        Analyze.MIB, Analyze.GIB, Analyze.TIB, Analyze.KIB])
      (by norm_num)

/-- C4: the tier-based `recommendClusterSize` scores by the maximum of the
two tier indices and reads the cluster size from `CLUSTER_SIZES` at the score
clamped to the list length; score 0 gives 1, any score ≥ 7 gives 16. -/
theorem C4_recommendClusterSize_tier_score (totalBytes fileCount : ℚ) :
    ((Analyze.recommendClusterSize totalBytes fileCount).score =
      max (Analyze.pickTier totalBytes Analyze.SIZE_TIERS).index
        (Analyze.pickTier fileCount Analyze.FILE_TIERS).index) ∧
    ((Analyze.recommendClusterSize totalBytes fileCount).clusterSize =
      Analyze.CLUSTER_SIZES.getD
        (min (Analyze.recommendClusterSize totalBytes fileCount).score
          (Analyze.CLUSTER_SIZES.length - 1)) 0) ∧
    ((Analyze.recommendClusterSize totalBytes fileCount).score = 0 →
      (Analyze.recommendClusterSize totalBytes fileCount).clusterSize = 1) ∧
    (7 ≤ (Analyze.recommendClusterSize totalBytes fileCount).score →
      (Analyze.recommendClusterSize totalBytes fileCount).clusterSize = 16) := by
  refine ⟨rfl, rfl, ?_, ?_⟩
  · intro h
    have hcs : (Analyze.recommendClusterSize totalBytes fileCount).clusterSize =
        Analyze.CLUSTER_SIZES.getD
          (min (Analyze.recommendClusterSize totalBytes fileCount).score
            (Analyze.CLUSTER_SIZES.length - 1)) 0 := rfl
    rw [hcs, h]
    rfl
  · intro h
    have hcs : (Analyze.recommendClusterSize totalBytes fileCount).clusterSize =
        Analyze.CLUSTER_SIZES.getD
          (min (Analyze.recommendClusterSize totalBytes fileCount).score
            (Analyze.CLUSTER_SIZES.length - 1)) 0 := rfl
    have hmin : min (Analyze.recommendClusterSize totalBytes fileCount).score
        (Analyze.CLUSTER_SIZES.length - 1) = 7 := by
      have hlen : Analyze.CLUSTER_SIZES.length - 1 = 7 := rfl
      omega
    rw [hcs, hmin]
    rfl

theorem C4_recommendClusterSize_tier_score_witness :
    (Analyze.recommendClusterSize 0 0).score = 0 ∧
    (Analyze.recommendClusterSize 0 0).clusterSize = 1 := by
  have hscore : (Analyze.recommendClusterSize 0 0).score = 0 := by
    have h1 : (Analyze.pickTier 0 Analyze.SIZE_TIERS).index = 0 := by
      norm_num [Analyze.pickTier, Analyze.SIZE_TIERS, Analyze.ltLimit,
        Analyze.MIB, Analyze.GIB, Analyze.TIB, Analyze.KIB]
    have h2 : (Analyze.pickTier 0 Analyze.FILE_TIERS).index = 0 := by
      norm_num [Analyze.pickTier, Analyze.FILE_TIERS, Analyze.ltLimit]
    have h3 := (C4_recommendClusterSize_tier_score 0 0).1
    rw [h3, h1, h2]
    simp
  exact ⟨hscore, (C4_recommendClusterSize_tier_score 0 0).2.2.1 hscore⟩

/-! ### Median-based recommender: C3 -/

/-- C3: the median-variant `recommendClusterSize` reports a range exactly when
p25 and p75 are positive, their ratio is at least 4, and their bucket indices
differ; the reported range is `[bucket(p25), bucket(p75)]`, and the point
recommendation is always the bucket at `pickClusterIndex(medianBytes)`. -/
theorem C3_recommendClusterSize_median_range (m p25 p75 : ℚ) :
    ((Median.recommendClusterSize m p25 p75).clusterBytes =
      Median.CLUSTER_BYTES.getD (Median.pickClusterIndex (.num m)) 0) ∧
    (((Median.recommendClusterSize m p25 p75).range).isSome = true ↔
      (0 < p25 ∧ 0 < p75 ∧ 4 ≤ p75 / p25 ∧
        Median.pickClusterIndex (.num p25) ≠ Median.pickClusterIndex (.num p75))) ∧
    (∀ rg, (Median.recommendClusterSize m p25 p75).range = some rg →
      rg.lowBytes = Median.CLUSTER_BYTES.getD (Median.pickClusterIndex (.num p25)) 0 ∧
      rg.highBytes = Median.CLUSTER_BYTES.getD (Median.pickClusterIndex (.num p75)) 0) := by
  refine ⟨rfl, ?_, ?_⟩
  · show (if 0 < p25 ∧ 0 < p75 ∧ 4 ≤ p75 / p25 then
        if Median.pickClusterIndex (.num p25) ≠ Median.pickClusterIndex (.num p75) then
          some (⟨Median.CLUSTER_BYTES.getD (Median.pickClusterIndex (.num p25)) 0,
            Median.CLUSTER_BYTES.getD (Median.pickClusterIndex (.num p75)) 0,
            Median.pickClusterIndex (.num p25),
            Median.pickClusterIndex (.num p75)⟩ : Median.ClusterRange)
        else none
      else none).isSome = true ↔ _
    split_ifs with hhet hne
    · simp only [Option.isSome_some]
      exact ⟨fun _ => ⟨hhet.1, hhet.2.1, hhet.2.2, hne⟩, fun _ => True.intro⟩
    · simp only [Option.isSome_none]
      constructor
      · intro hc; cases hc
      · rintro ⟨_, _, _, hc⟩; exact absurd hc hne
    · simp only [Option.isSome_none]
      constructor
      · intro hc; cases hc
      · rintro ⟨ha, hb, hc, _⟩; exact (hhet ⟨ha, hb, hc⟩).elim
  · intro rg hrg
    revert hrg
    show (if 0 < p25 ∧ 0 < p75 ∧ 4 ≤ p75 / p25 then
        if Median.pickClusterIndex (.num p25) ≠ Median.pickClusterIndex (.num p75) then
          some (⟨Median.CLUSTER_BYTES.getD (Median.pickClusterIndex (.num p25)) 0,
            Median.CLUSTER_BYTES.getD (Median.pickClusterIndex (.num p75)) 0,
            Median.pickClusterIndex (.num p25),
            Median.pickClusterIndex (.num p75)⟩ : Median.ClusterRange)
        else none
      else none) = some rg → _
    split_ifs with hhet hne
    · intro hrg
      cases hrg
      exact ⟨rfl, rfl⟩
    · intro hc; cases hc
    · intro hc; cases hc

theorem C3_recommendClusterSize_median_range_witness :
    ((Median.recommendClusterSize 4096 1000 8192).range).isSome = true := by
  refine ((C3_recommendClusterSize_median_range 4096 1000 8192).2.1).mpr
    ⟨by norm_num, by norm_num, by norm_num, ?_⟩
  have hl : Median.pickClusterIndex (.num 1000) = 0 := by
    norm_num [Median.pickClusterIndex, Median.pickGo, Median.CLUSTER_BYTES,
      Median.KIB, Median.MIB]
  have hh : Median.pickClusterIndex (.num 8192) = 1 := by
    norm_num [Median.pickClusterIndex, Median.pickGo, Median.CLUSTER_BYTES,
      Median.KIB, Median.MIB]
  rw [hl, hh]
  norm_num

/-! ### `pickClusterIndex`: C2 -/

theorem pickGo_all_lt (q : ℚ) :
    ∀ (l : List ℚ) (k : ℕ), (∀ x ∈ l, x < q) →
    Median.pickGo q k l = Median.CLUSTER_BYTES.length - 1 := by
  intro l
  induction l with
  | nil => intro k _; rfl
  | cons s rest ih =>
    intro k h
    have hs : s < q := h s (by simp)
    simp only [Median.pickGo]
    rw [if_neg hs.ne', if_neg (not_lt.mpr hs.le)]
    exact ih (k + 1) fun x hx => h x (by simp [hx])

theorem pickGo_between (q : ℚ) :
    ∀ (l : List ℚ) (k i : ℕ), i < l.length →
    (∀ j, j < i → l.getD j 0 < q) → q < l.getD i 0 →
    Median.pickGo q k l = k + i - 1 := by
  intro l
  induction l with
  | nil => intro k i hi; simp at hi
  | cons s rest ih =>
    intro k i hi hprev hlt
    cases i with
    | zero =>
      simp only [List.getD_cons_zero] at hlt
      simp only [Median.pickGo]
      rw [if_neg hlt.ne, if_pos hlt]
      omega
    | succ i =>
      have hs : s < q := by
        have := hprev 0 (Nat.succ_pos i)
        simpa using this
      simp only [Median.pickGo]
      rw [if_neg hs.ne', if_neg (not_lt.mpr hs.le)]
      have h1 : Median.pickGo q (k + 1) rest = (k + 1) + i - 1 := by
        refine ih (k + 1) i (by simpa using hi) ?_ (by simpa using hlt)
        intro j hj
        have := hprev (j + 1) (Nat.succ_lt_succ hj)
        simpa using this
      rw [h1]
      omega

theorem pickGo_exact :
    ∀ (l : List ℚ) (k i : ℕ), i < l.length →
    (∀ j, j < i → l.getD j 0 < l.getD i 0) →
    Median.pickGo (l.getD i 0) k l = k + i := by
  intro l
  induction l with
  | nil => intro k i hi; simp at hi
  | cons s rest ih =>
    intro k i hi hprev
    cases i with
    | zero => simp [Median.pickGo]
    | succ i =>
      have hs : s < (s :: rest).getD (i + 1) 0 := hprev 0 (Nat.succ_pos i)
      simp only [List.getD_cons_succ] at hs ⊢
      simp only [Median.pickGo]
      rw [if_neg hs.ne', if_neg (not_lt.mpr hs.le)]
      have h1 : Median.pickGo (rest.getD i 0) (k + 1) rest = (k + 1) + i := by
        refine ih (k + 1) i (by simpa using hi) ?_
        intro j hj
        have := hprev (j + 1) (Nat.succ_lt_succ hj)
        simpa using this
      rw [h1]
      omega

theorem CLUSTER_BYTES_pos :
    ∀ i, i < Median.CLUSTER_BYTES.length → 0 < Median.CLUSTER_BYTES.getD i 0 := by
  intro i hi
  have h9 : Median.CLUSTER_BYTES.length = 9 := rfl
  rw [h9] at hi
  interval_cases i <;>
    norm_num [Median.CLUSTER_BYTES, Median.KIB, Median.MIB]

theorem CLUSTER_BYTES_ascending :
    ∀ j i, j < i → i < Median.CLUSTER_BYTES.length →
    Median.CLUSTER_BYTES.getD j 0 < Median.CLUSTER_BYTES.getD i 0 := by
  intro j i hj hi
  have h9 : Median.CLUSTER_BYTES.length = 9 := rfl
  rw [h9] at hi
  interval_cases i <;> interval_cases j <;>
    norm_num [Median.CLUSTER_BYTES, Median.KIB, Median.MIB]

/-- C2: `pickClusterIndex` returns 0 on non-positive or non-finite input; an
exact bucket match returns that bucket's index; a positive value strictly
below its first strictly-greater bucket returns the previous index clamped to
0; a value above every bucket returns the last index. -/
theorem C2_pickClusterIndex_buckets :
    (∀ q : ℚ, q ≤ 0 → Median.pickClusterIndex (.num q) = 0) ∧
    (Median.pickClusterIndex .nan = 0 ∧ Median.pickClusterIndex .posInf = 0 ∧
      Median.pickClusterIndex .negInf = 0) ∧
    (∀ i, i < Median.CLUSTER_BYTES.length →
      Median.pickClusterIndex (.num (Median.CLUSTER_BYTES.getD i 0)) = i) ∧
    (∀ (q : ℚ) (i : ℕ), 0 < q → i < Median.CLUSTER_BYTES.length →
      q < Median.CLUSTER_BYTES.getD i 0 →
      (∀ j, j < i → Median.CLUSTER_BYTES.getD j 0 < q) →
      Median.pickClusterIndex (.num q) = i - 1) ∧
    (∀ q : ℚ, (∀ x ∈ Median.CLUSTER_BYTES, x < q) →
      Median.pickClusterIndex (.num q) = Median.CLUSTER_BYTES.length - 1) := by
  refine ⟨?_, ⟨rfl, rfl, rfl⟩, ?_, ?_, ?_⟩
  · intro q hq
    simp [Median.pickClusterIndex, hq]
  · intro i hi
    have hpos := CLUSTER_BYTES_pos i hi
    simp only [Median.pickClusterIndex, if_neg (not_le.mpr hpos)]
    simpa using pickGo_exact Median.CLUSTER_BYTES 0 i hi
      (fun j hj => CLUSTER_BYTES_ascending j i hj hi)
  · intro q i hq hi hlt hprev
    simp only [Median.pickClusterIndex, if_neg (not_le.mpr hq)]
    simpa using pickGo_between q Median.CLUSTER_BYTES 0 i hi hprev hlt
  · intro q hall
    have hmem : (4 * Median.KIB) ∈ Median.CLUSTER_BYTES := by
      simp [Median.CLUSTER_BYTES]
    have hq : 0 < q := lt_trans (by norm_num [Median.KIB]) (hall _ hmem)
    simp only [Median.pickClusterIndex, if_neg (not_le.mpr hq)]
    exact pickGo_all_lt q Median.CLUSTER_BYTES 0 hall

theorem C2_pickClusterIndex_buckets_witness :
    Median.pickClusterIndex (.num (-3)) = 0 ∧
    Median.pickClusterIndex (.num 5000) = 0 := by
  constructor
  · exact C2_pickClusterIndex_buckets.1 (-3) (by norm_num)
  · have h := C2_pickClusterIndex_buckets.2.2.2.1 5000 1 (by norm_num)
      (by norm_num [Median.CLUSTER_BYTES])
      (by norm_num [Median.CLUSTER_BYTES, Median.KIB, Median.MIB])
      (by
        intro j hj
        interval_cases j
        norm_num [Median.CLUSTER_BYTES, Median.KIB, Median.MIB])
    simpa using h

/-! ### `percentile`: C6 -/

theorem percentile_eval (s : List ℚ) (r : ℚ) (h : ¬ s.length = 0) (k : ℕ)
    (hk : ((s.length : ℚ) - 1) * (min (max r 0) 1) = (k : ℚ)) :
    Median.percentile s r = s.getD k 0 := by
  simp only [Median.percentile, if_neg h]
  rw [hk, Int.floor_natCast, Int.ceil_natCast, if_pos rfl]
  simp

theorem percentile_zero_getD (s : List ℚ) (h : ¬ s.length = 0) :
    Median.percentile s 0 = s.getD 0 0 :=
  percentile_eval s 0 h 0 (by norm_num)

theorem percentile_one_getD (s : List ℚ) (h : ¬ s.length = 0) :
    Median.percentile s 1 = s.getD (s.length - 1) 0 := by
  refine percentile_eval s 1 h (s.length - 1) ?_
  have h1 : 1 ≤ s.length := by omega
  have hc : ((s.length - 1 : ℕ) : ℚ) = (s.length : ℚ) - 1 := by
    push_cast [Nat.cast_sub h1]
    ring
  rw [hc]
  norm_num

/-- C6: on a non-empty ascending list, `percentile` at ratio 0 is the minimum
element and at ratio 1 the maximum element; on a one-element list it is that
element for every ratio. -/
theorem C6_percentile_endpoints (s : List ℚ) (hne : s ≠ [])
    (hsorted : s.Sorted (· ≤ ·)) :
    (Median.percentile s 0 ∈ s ∧ ∀ x ∈ s, Median.percentile s 0 ≤ x) ∧
    (Median.percentile s 1 ∈ s ∧ ∀ x ∈ s, x ≤ Median.percentile s 1) ∧
    (∀ y p : ℚ, Median.percentile [y] p = y) := by
  have hlen : 0 < s.length := List.length_pos.mpr hne
  have hget : ∀ (k : ℕ) (hk : k < s.length), s.getD k 0 = s.get ⟨k, hk⟩ := by
    intro k hk
    simp [List.getD_eq_getElem?_getD, List.getElem?_eq_getElem hk,
      List.get_eq_getElem]
  have h0 := percentile_zero_getD s (by omega)
  have h1 := percentile_one_getD s (by omega)
  refine ⟨⟨?_, ?_⟩, ⟨?_, ?_⟩, ?_⟩
  · rw [h0, hget 0 hlen]
    exact List.get_mem s 0 hlen
  · intro x hx
    rw [h0, hget 0 hlen]
    obtain ⟨i, rfl⟩ := List.mem_iff_get.mp hx
    exact hsorted.rel_get_of_le (Fin.le_def.mpr (Nat.zero_le _))
  · rw [h1, hget _ (by omega)]
    exact List.get_mem s (s.length - 1) (by omega)
  · intro x hx
    rw [h1, hget _ (by omega)]
    obtain ⟨i, rfl⟩ := List.mem_iff_get.mp hx
    refine hsorted.rel_get_of_le (Fin.le_def.mpr ?_)
    have := i.isLt
    simp only
    omega
  · intro y p
    have he : Median.percentile [y] p = List.getD [y] 0 0 := by
      refine percentile_eval [y] p (by simp) 0 ?_
      have hz : ((List.length [y] : ℚ) - 1) = 0 := by norm_num
      rw [hz, zero_mul]
      norm_num
    rw [he]
    rfl

theorem C6_percentile_endpoints_witness :
    ((1 : ℚ) :: [2]) ≠ [] ∧ ((1 : ℚ) :: [2]).Sorted (· ≤ ·) ∧
    (Median.percentile [1, 2] 0 ∈ ([1, 2] : List ℚ) ∧
      ∀ x ∈ ([1, 2] : List ℚ), Median.percentile [1, 2] 0 ≤ x) := by
  refine ⟨by simp, by simp, ?_⟩
  exact (C6_percentile_endpoints [1, 2] (by simp) (by simp)).1

/-! ### CLI argument loop: C9 -/

theorem parseLoop_nil (t : Option String) (b : Bool) (u : List String) :
    Cli.parseLoop [] t b u =
      if u = [] then Cli.CliOutcome.run t else Cli.CliOutcome.errorUnknown u := by
  simp only [Cli.parseLoop]
  rcases u with _ | ⟨a, u⟩ <;> simp

theorem parseLoop_cons_afterDD (a : String) (rest : List String)
    (t : Option String) (u : List String) :
    Cli.parseLoop (a :: rest) t true u =
      Cli.parseLoop rest (if t = none then some a else t) true u := by
  rw [Cli.parseLoop, if_pos rfl]

theorem parseLoop_cons_dd (rest : List String) (t : Option String)
    (u : List String) :
    Cli.parseLoop ("--" :: rest) t false u = Cli.parseLoop rest t true u := by
  rw [Cli.parseLoop, if_neg (by simp), if_pos rfl]

theorem parseLoop_cons_unknown (a : String) (rest : List String)
    (t : Option String) (u : List String) (hdd : a ≠ "--") (hh : a ≠ "-h")
    (hhelp : a ≠ "--help") (hdash : Cli.jsStartsWith a "-" = true) :
    Cli.parseLoop (a :: rest) t false u =
      Cli.parseLoop rest t false (u ++ [a]) := by
  rw [Cli.parseLoop, if_neg (by simp), if_neg hdd,
    if_neg (by simp [hh, hhelp]), if_pos hdash]

theorem parseLoop_cons_positional (a : String) (rest : List String)
    (t : Option String) (u : List String) (hdd : a ≠ "--") (hh : a ≠ "-h")
    (hhelp : a ≠ "--help") (hdash : ¬ Cli.jsStartsWith a "-" = true) :
    Cli.parseLoop (a :: rest) t false u =
      Cli.parseLoop rest (if t = none then some a else t) false u := by
  rw [Cli.parseLoop, if_neg (by simp), if_neg hdd,
    if_neg (by simp [hh, hhelp]), if_neg hdash]

theorem parseLoop_afterDD_some (tok : String) :
    ∀ (post : List String) (u : List String),
    Cli.parseLoop post (some tok) true u =
      if u = [] then Cli.CliOutcome.run (some tok)
      else Cli.CliOutcome.errorUnknown u := by
  intro post
  induction post with
  | nil => intro u; exact parseLoop_nil _ _ u
  | cons a post ih =>
    intro u
    rw [parseLoop_cons_afterDD]
    simpa using ih u

theorem parseLoop_afterDD_err :
    ∀ (post : List String) (t : Option String) (u : List String), u ≠ [] →
    Cli.parseLoop post t true u = Cli.CliOutcome.errorUnknown u := by
  intro post
  induction post with
  | nil => intro t u hu; rw [parseLoop_nil, if_neg hu]
  | cons a post ih =>
    intro t u hu
    rw [parseLoop_cons_afterDD]
    exact ih _ u hu

theorem parseLoop_skip_unknowns :
    ∀ (pre rest : List String) (t : Option String) (u : List String),
    (∀ a ∈ pre, Cli.jsStartsWith a "-" = true ∧ a ≠ "--" ∧ a ≠ "-h" ∧ a ≠ "--help") →
    Cli.parseLoop (pre ++ rest) t false u = Cli.parseLoop rest t false (u ++ pre) := by
  intro pre
  induction pre with
  | nil => intro rest t u _; simp
  | cons a pre ih =>
    intro rest t u h
    obtain ⟨hdash, hdd, hh, hhelp⟩ := h a (by simp)
    rw [List.cons_append, parseLoop_cons_unknown a _ t u hdd hh hhelp hdash,
      ih rest t (u ++ [a]) (fun x hx => h x (by simp [hx]))]
    simp

/-- C9 counterexample: the claim fails as stated on the argument loop of
`src/bin/cluster-size.js`.  With `["a", "--", "-b"]` the token after `--` is
not taken as the path (the earlier positional `"a"` already was), and with
`["-x", "-h"]` the unrecognized option `-x` does not cause an exit-1 error —
the later help flag exits 0 first. -/
theorem C9_cli_counterexample :
    Cli.parseArgs ["a", "--", "-b"] = Cli.CliOutcome.run (some "a") ∧
    Cli.parseArgs ["-x", "-h"] = Cli.CliOutcome.help := by
  constructor <;> rfl

/-- C9 (amended): after `--` the immediately following token is taken as the
target path, even if it begins with a dash, provided no target was taken
before the `--`; and any other leading-dash token seen before `--` is
recorded as an unrecognized option and causes the exit-1 error, provided no
`-h`/`--help` is processed during the loop. -/
theorem C9_cli_double_dash_amended :
    (∀ (pre : List String) (tok : String) (post : List String),
      (∀ a ∈ pre, Cli.jsStartsWith a "-" = true ∧ a ≠ "--" ∧ a ≠ "-h" ∧ a ≠ "--help") →
      Cli.parseArgs (pre ++ "--" :: tok :: post) =
        if pre = [] then Cli.CliOutcome.run (some tok)
        else Cli.CliOutcome.errorUnknown pre) ∧
    (∀ (pre rest : List String),
      (∀ a ∈ pre, a ≠ "--" ∧ a ≠ "-h" ∧ a ≠ "--help") →
      (∃ a ∈ pre, Cli.jsStartsWith a "-" = true) →
      (rest = [] ∨ ∃ rest2, rest = "--" :: rest2) →
      ∃ opts, opts ≠ [] ∧
        Cli.parseArgs (pre ++ rest) = Cli.CliOutcome.errorUnknown opts) := by
  constructor
  · intro pre tok post hpre
    unfold Cli.parseArgs
    rw [parseLoop_skip_unknowns pre _ none [] hpre, List.nil_append,
      parseLoop_cons_dd, parseLoop_cons_afterDD, if_pos rfl,
      parseLoop_afterDD_some tok post pre]
  · have main : ∀ (pre rest : List String) (t : Option String) (u : List String),
        (∀ a ∈ pre, a ≠ "--" ∧ a ≠ "-h" ∧ a ≠ "--help") →
        ((∃ a ∈ pre, Cli.jsStartsWith a "-" = true) ∨ u ≠ []) →
        (rest = [] ∨ ∃ rest2, rest = "--" :: rest2) →
        ∃ opts, opts ≠ [] ∧
          Cli.parseLoop (pre ++ rest) t false u = Cli.CliOutcome.errorUnknown opts := by
      intro pre
      induction pre with
      | nil =>
        intro rest t u _ hd hrest
        have hu : u ≠ [] := by
          rcases hd with ⟨a, ha, _⟩ | hu
          · simp at ha
          · exact hu
        rcases hrest with rfl | ⟨rest2, rfl⟩
        · exact ⟨u, hu, by rw [List.append_nil, parseLoop_nil, if_neg hu]⟩
        · refine ⟨u, hu, ?_⟩
          rw [List.nil_append, parseLoop_cons_dd]
          exact parseLoop_afterDD_err rest2 t u hu
      | cons a pre ih =>
        intro rest t u hno hd hrest
        obtain ⟨hdd, hh, hhelp⟩ := hno a (by simp)
        by_cases hdash : Cli.jsStartsWith a "-" = true
        · rw [List.cons_append, parseLoop_cons_unknown a _ t u hdd hh hhelp hdash]
          exact ih rest t (u ++ [a]) (fun x hx => hno x (by simp [hx]))
            (Or.inr (by simp)) hrest
        · rw [List.cons_append,
            parseLoop_cons_positional a _ t u hdd hh hhelp hdash]
          refine ih rest _ u (fun x hx => hno x (by simp [hx])) ?_ hrest
          rcases hd with ⟨a2, ha2, hda2⟩ | hu
          · rcases List.mem_cons.mp ha2 with rfl | ha2
            · exact absurd hda2 hdash
            · exact Or.inl ⟨a2, ha2, hda2⟩
          · exact Or.inr hu
    intro pre rest hno hdash hrest
    exact main pre rest none [] hno (Or.inl hdash) hrest

theorem C9_cli_double_dash_amended_witness :
    Cli.parseArgs (["-x"] ++ "--" :: "-b" :: []) =
      Cli.CliOutcome.errorUnknown ["-x"] := by
  have h := C9_cli_double_dash_amended.1 ["-x"] "-b" []
    (by intro a ha; simp at ha; subst ha; exact ⟨rfl, by simp, by simp, by simp⟩)
  simpa using h

/-! ### `formatBytes`: C8 -/

theorem fbGo_of_lt (b : ℚ) (u : ℕ) (hb : b < 1024) : fbGo b u = (b, u) := by
  rw [fbGo, dif_neg]
  rintro ⟨h1, _⟩
  exact absurd h1 (not_le.mpr hb)

theorem fbGo_pos : ∀ (b : ℚ) (u : ℕ), 0 < b → 0 < (fbGo b u).1 := by
  intro b u
  induction b, u using fbGo.induct with
  | case1 v i hcond ih =>
    intro hv
    rw [fbGo, dif_pos hcond]
    exact ih (by positivity)
  | case2 v i hcond =>
    intro hv
    rw [fbGo, dif_neg hcond]
    exact hv

theorem UNITS_getD_mem : ∀ i : ℕ, UNITS.getD i "B" ∈ UNITS := by
  intro i
  rcases i with _ | _ | _ | _ | _ | _ | n <;> simp [UNITS, List.getD]

theorem toFixed_zero_zero : toFixed 0 0 = "0" := by
  norm_num [toFixed]
  rfl

/-- C8 counterexample: `formatBytes(50)` renders as `"50.0 B"` — a value
below 1024 printed in the B unit but with one decimal place, not zero. -/
theorem C8_formatBytes_counterexample :
    formatBytes (.num 50) = "50.0 B" ∧
    formatBytes (.num 50) ≠ toFixed 50 0 ++ " " ++ "B" := by
  have hfb : fbGo 50 0 = (50, 0) := fbGo_of_lt 50 0 (by norm_num)
  have h1 : formatBytes (.num 50) = toFixed 50 1 ++ " " ++ "B" := by
    simp only [formatBytes, hfb]
    rw [if_neg (by norm_num), if_neg (by norm_num), if_pos (by norm_num)]
    rfl
  have h2 : toFixed 50 1 = "50.0" := by
    have hfloor : (⌊(50 : ℚ) * 10 ^ 1 + 1 / 2⌋).toNat = 500 := by
      norm_num
      decide
    simp only [toFixed, hfloor]
    rw [if_neg (by norm_num)]
    rfl
  have h3 : toFixed 50 0 = "50" := by
    have hfloor : (⌊(50 : ℚ) * 10 ^ 0 + 1 / 2⌋).toNat = 50 := by
      norm_num
      decide
    simp only [toFixed, hfloor]
    rw [if_pos trivial]
    rfl
  constructor
  · rw [h1, h2]
    rfl
  · rw [h1, h2, h3]
    decide

/-- C8 (amended): `formatBytes` always renders a non-negative magnitude via
`toFixed` followed by one of the units B/KB/MB/GB/TB/PB; `formatBytes(0)` is
`"0 B"`; and every positive value strictly below 1024 renders in the B unit
with 0/1/2 decimal places according to magnitude (≥100 → 0, ≥10 → 1,
else → 2). -/
theorem C8_formatBytes_amended :
    (∀ v : JsVal, ∃ (q : ℚ) (d : ℕ) (u : String), 0 ≤ q ∧ u ∈ UNITS ∧
      formatBytes v = toFixed q d ++ " " ++ u) ∧
    (formatBytes (.num 0) = "0 B") ∧
    (∀ q : ℚ, 0 < q → q < 1024 →
      formatBytes (.num q) =
        toFixed q (if 100 ≤ q then 0 else if 10 ≤ q then 1 else 2)
          ++ " " ++ "B") := by
  have hzero : ("0 B" : String) = toFixed 0 0 ++ " " ++ "B" := by
    rw [toFixed_zero_zero]
    rfl
  refine ⟨?_, rfl, ?_⟩
  · intro v
    match v with
    | .nan => exact ⟨0, 0, "B", le_refl 0, by simp [UNITS], hzero⟩
    | .posInf => exact ⟨0, 0, "B", le_refl 0, by simp [UNITS], hzero⟩
    | .negInf => exact ⟨0, 0, "B", le_refl 0, by simp [UNITS], hzero⟩
    | .num b =>
      by_cases hb : b ≤ 0
      · exact ⟨0, 0, "B", le_refl 0, by simp [UNITS],
          by simp only [formatBytes, if_pos hb]; exact hzero⟩
      · have hbpos : 0 < b := not_le.mp hb
        refine ⟨(fbGo b 0).1,
          if 100 ≤ (fbGo b 0).1 then 0 else if 10 ≤ (fbGo b 0).1 then 1 else 2,
          UNITS.getD (fbGo b 0).2 "B",
          (fbGo_pos b 0 hbpos).le, UNITS_getD_mem _, ?_⟩
        simp only [formatBytes, if_neg hb]
        split_ifs <;> rfl
  · intro q h0 hq
    simp only [formatBytes, if_neg (not_le.mpr h0), fbGo_of_lt q 0 hq]
    split_ifs <;> rfl

theorem C8_formatBytes_amended_witness :
    formatBytes (.num 500) = toFixed 500 0 ++ " " ++ "B" := by
  have h := C8_formatBytes_amended.2.2 500 (by norm_num) (by norm_num)
  rw [if_pos (by norm_num : (100 : ℚ) ≤ 500)] at h
  exact h

/-! ### Traversal bookkeeping: toolkit for C1, C7, C10 -/

theorem foldlMax_out (l : List ℚ) :
    ∀ b x : ℚ, l.foldl max (max b x) = max (l.foldl max b) x := by
  induction l with
  | nil => intro b x; simp
  | cons a l ih =>
    intro b x
    simp only [List.foldl_cons]
    rw [sup_right_comm b x a, ih]

theorem foldlMax_of_le (l : List ℚ) :
    ∀ b : ℚ, (∀ x ∈ l, x ≤ b) → l.foldl max b = b := by
  induction l with
  | nil => intro b _; rfl
  | cons a l ih =>
    intro b h
    simp only [List.foldl_cons]
    rw [max_eq_left (h a (by simp))]
    exact ih b fun x hx => h x (by simp [hx])

theorem flatten_reverse_perm (ll : List (List ℚ)) :
    List.Perm ll.reverse.flatten ll.flatten := by
  induction ll with
  | nil => simp
  | cons a ll ih =>
    simp only [List.reverse_cons, List.flatten_append, List.flatten_cons,
      List.flatten_nil, List.append_nil]
    exact (ih.append (List.Perm.refl a)).trans List.perm_append_comm

theorem stackSizes_append (a b : List (String × Median.FsNode)) :
    Median.stackSizes (a ++ b) = Median.stackSizes a ++ Median.stackSizes b := by
  simp [Median.stackSizes]

theorem stackSyms_append (a b : List (String × Median.FsNode)) :
    Median.stackSyms (a ++ b) = Median.stackSyms a + Median.stackSyms b := by
  simp [Median.stackSyms]

theorem stackFails_append (a b : List (String × Median.FsNode)) :
    Median.stackFails (a ++ b) = Median.stackFails a + Median.stackFails b := by
  simp [Median.stackFails]

theorem stackDirs_append (a b : List (String × Median.FsNode)) :
    Median.stackDirs (a ++ b) = Median.stackDirs a + Median.stackDirs b := by
  simp [Median.stackDirs]

theorem stackSizes_reverse_perm (l : List (String × Median.FsNode)) :
    List.Perm (Median.stackSizes l.reverse) (Median.stackSizes l) := by
  simp only [Median.stackSizes, List.map_reverse]
  exact flatten_reverse_perm _

theorem stackSyms_reverse (l : List (String × Median.FsNode)) :
    Median.stackSyms l.reverse = Median.stackSyms l := by
  simp [Median.stackSyms, List.map_reverse, List.sum_reverse]

theorem stackFails_reverse (l : List (String × Median.FsNode)) :
    Median.stackFails l.reverse = Median.stackFails l := by
  simp [Median.stackFails, List.map_reverse, List.sum_reverse]

theorem stackDirs_reverse (l : List (String × Median.FsNode)) :
    Median.stackDirs l.reverse = Median.stackDirs l := by
  simp [Median.stackDirs, List.map_reverse, List.sum_reverse]

theorem entries_bridge (dp : String) :
    ∀ es : List (String × Median.FsNode),
    Median.entriesSyms es =
      Median.shallowSyms es + Median.stackSyms (Median.pendingOf dp es) ∧
    Median.entriesFails es =
      Median.shallowFails es + Median.stackFails (Median.pendingOf dp es) ∧
    Median.entriesDirs es = Median.stackDirs (Median.pendingOf dp es) ∧
    List.Perm (Median.entriesSizes es)
      (Median.shallowSizes es ++ Median.stackSizes (Median.pendingOf dp es)) := by
  intro es
  induction es with
  | nil =>
    simp [Median.entriesSyms, Median.entriesFails, Median.entriesDirs,
      Median.entriesSizes, Median.shallowSyms, Median.shallowFails,
      Median.shallowSizes, Median.pendingOf, Median.stackSyms,
      Median.stackFails, Median.stackDirs, Median.stackSizes]
  | cons e rest ih =>
    obtain ⟨nm, n⟩ := e
    obtain ⟨ihs, ihf, ihd, ihz⟩ := ih
    cases n with
    | dir es2 rb =>
      cases rb with
      | true =>
        refine ⟨?_, ?_, ?_, ?_⟩
        · simp only [Median.entriesSyms, Median.shallowSyms, Median.pendingOf,
            Median.stackSyms, Median.elemSyms, List.map_cons, List.sum_cons,
            List.flatten_cons, List.singleton_append] at ihs ⊢
          omega
        · simp only [Median.entriesFails, Median.shallowFails, Median.pendingOf,
            Median.stackFails, Median.elemFails, List.map_cons, List.sum_cons,
            List.flatten_cons, List.singleton_append] at ihf ⊢
          omega
        · simp only [Median.entriesDirs, Median.pendingOf, Median.stackDirs,
            Median.elemDirs, List.map_cons, List.sum_cons, List.flatten_cons,
            List.singleton_append] at ihd ⊢
          omega
        · simp only [Median.entriesSizes, Median.shallowSizes, Median.pendingOf,
            Median.stackSizes, Median.elemSizes, List.map_cons,
            List.flatten_cons, List.singleton_append, List.nil_append] at ihz ⊢
          refine (List.Perm.append_left (Median.entriesSizes es2) ihz).trans ?_
          rw [← List.append_assoc, ← List.append_assoc]
          exact List.perm_append_comm.append_right _
      | false =>
        refine ⟨?_, ?_, ?_, ?_⟩
        · simp only [Median.entriesSyms, Median.shallowSyms, Median.pendingOf,
            Median.stackSyms, Median.elemSyms, List.map_cons, List.sum_cons,
            List.flatten_cons, List.singleton_append] at ihs ⊢
          omega
        · simp only [Median.entriesFails, Median.shallowFails, Median.pendingOf,
            Median.stackFails, Median.elemFails, List.map_cons, List.sum_cons,
            List.flatten_cons, List.singleton_append] at ihf ⊢
          omega
        · simp only [Median.entriesDirs, Median.pendingOf, Median.stackDirs,
            Median.elemDirs, List.map_cons, List.sum_cons, List.flatten_cons,
            List.singleton_append] at ihd ⊢
          omega
        · simp only [Median.entriesSizes, Median.shallowSizes, Median.pendingOf,
            Median.stackSizes, Median.elemSizes, List.map_cons,
            List.flatten_cons, List.singleton_append, List.nil_append] at ihz ⊢
          exact ihz
    | file sz ok =>
      cases ok with
      | true =>
        refine ⟨?_, ?_, ?_, ?_⟩
        · simpa [Median.entriesSyms, Median.shallowSyms, Median.pendingOf,
            Median.stackSyms, List.map_cons, List.sum_cons, List.flatten_cons] using ihs
        · simpa [Median.entriesFails, Median.shallowFails, Median.pendingOf,
            Median.stackFails, List.map_cons, List.sum_cons, List.flatten_cons] using ihf
        · simpa [Median.entriesDirs, Median.pendingOf, Median.stackDirs,
            List.map_cons, List.sum_cons, List.flatten_cons] using ihd
        · simp only [Median.entriesSizes, Median.shallowSizes, Median.pendingOf,
            Median.stackSizes, List.map_cons, List.flatten_cons,
            List.singleton_append, List.nil_append, List.cons_append] at ihz ⊢
          exact ihz.cons sz
      | false =>
        refine ⟨?_, ?_, ?_, ?_⟩
        · simpa [Median.entriesSyms, Median.shallowSyms, Median.pendingOf,
            Median.stackSyms, List.map_cons, List.sum_cons, List.flatten_cons] using ihs
        · simp only [Median.entriesFails, Median.shallowFails, Median.pendingOf,
            Median.stackFails, List.map_cons, List.sum_cons,
            List.flatten_cons, List.nil_append] at ihf ⊢
          omega
        · simpa [Median.entriesDirs, Median.pendingOf, Median.stackDirs,
            List.map_cons, List.sum_cons, List.flatten_cons] using ihd
        · simpa [Median.entriesSizes, Median.shallowSizes, Median.pendingOf,
            Median.stackSizes, List.map_cons, List.flatten_cons] using ihz
    | symlink =>
      refine ⟨?_, ?_, ?_, ?_⟩
      · simp only [Median.entriesSyms, Median.shallowSyms, Median.pendingOf,
          Median.stackSyms, List.map_cons, List.sum_cons,
          List.flatten_cons, List.nil_append] at ihs ⊢
        omega
      · simpa [Median.entriesFails, Median.shallowFails, Median.pendingOf,
          Median.stackFails, List.map_cons, List.sum_cons, List.flatten_cons] using ihf
      · simpa [Median.entriesDirs, Median.pendingOf, Median.stackDirs,
          List.map_cons, List.sum_cons, List.flatten_cons] using ihd
      · simpa [Median.entriesSizes, Median.shallowSizes, Median.pendingOf,
          Median.stackSizes, List.map_cons, List.flatten_cons] using ihz
    | other =>
      refine ⟨?_, ?_, ?_, ?_⟩
      · simpa [Median.entriesSyms, Median.shallowSyms, Median.pendingOf,
          Median.stackSyms, List.map_cons, List.sum_cons, List.flatten_cons] using ihs
      · simpa [Median.entriesFails, Median.shallowFails, Median.pendingOf,
          Median.stackFails, List.map_cons, List.sum_cons, List.flatten_cons] using ihf
      · simpa [Median.entriesDirs, Median.pendingOf, Median.stackDirs,
          List.map_cons, List.sum_cons, List.flatten_cons] using ihd
      · simpa [Median.entriesSizes, Median.shallowSizes, Median.pendingOf,
          Median.stackSizes, List.map_cons, List.flatten_cons] using ihz

namespace Median

theorem pathJoin_ne (a b : String) : a ++ "/" ++ b ≠ "" := by
  intro h
  have hlen := congrArg String.length h
  simp [String.length_append] at hlen
  exact absurd hlen.1.2 (by decide)

theorem if_lt_max (a b : ℚ) : (if a < b then b else a) = max a b := by
  rcases lt_or_ge a b with h | h
  · rw [if_pos h, max_eq_right h.le]
  · rw [if_neg (not_lt.mpr h), max_eq_left h]

theorem walkEntries_spec (dp : String) :
    ∀ (entries : List (String × FsNode)) (s : ScanStats) (sizes : List ℚ),
    (walkEntries dp entries s sizes).stats.dirCount = s.dirCount ∧
    (walkEntries dp entries s sizes).stats.fileCount =
      s.fileCount + (shallowSizes entries).length ∧
    (walkEntries dp entries s sizes).stats.totalBytes =
      s.totalBytes + (shallowSizes entries).sum ∧
    (walkEntries dp entries s sizes).stats.skippedSymlinks =
      s.skippedSymlinks + shallowSyms entries ∧
    (walkEntries dp entries s sizes).stats.unreadableEntries =
      s.unreadableEntries + shallowFails entries ∧
    (walkEntries dp entries s sizes).stats.largestFileBytes =
      (shallowSizes entries).foldl max s.largestFileBytes ∧
    ((walkEntries dp entries s sizes).stats.largestFilePath = "" ↔
      (s.largestFilePath = "" ∧
        ∀ x ∈ shallowSizes entries, x ≤ s.largestFileBytes)) ∧
    (walkEntries dp entries s sizes).sizes = sizes ++ shallowSizes entries ∧
    (walkEntries dp entries s sizes).pending = pendingOf dp entries := by
  intro entries
  induction entries with
  | nil =>
    intro s sizes
    simp [walkEntries, shallowSizes, shallowSyms, shallowFails, pendingOf]
  | cons e rest ih =>
    intro s sizes
    obtain ⟨nm, n⟩ := e
    cases n with
    | symlink =>
      obtain ⟨h1, h2, h3, h4, h5, h6, h7, h8, h9⟩ :=
        ih { s with skippedSymlinks := s.skippedSymlinks + 1 } sizes
      simp only [walkEntries]
      refine ⟨by simp [h1], by simpa [shallowSizes] using h2,
        by simpa [shallowSizes] using h3, ?_,
        by simpa [shallowFails] using h5,
        by simpa [shallowSizes] using h6, ?_,
        by simpa [shallowSizes] using h8,
        by simpa [pendingOf] using h9⟩
      · rw [h4]
        simp [shallowSyms]
        omega
      · rw [h7]
        simp [shallowSizes]
    | other =>
      obtain ⟨h1, h2, h3, h4, h5, h6, h7, h8, h9⟩ := ih s sizes
      simp only [walkEntries]
      refine ⟨h1, by simpa [shallowSizes] using h2,
        by simpa [shallowSizes] using h3,
        by simpa [shallowSyms] using h4,
        by simpa [shallowFails] using h5,
        by simpa [shallowSizes] using h6, ?_,
        by simpa [shallowSizes] using h8,
        by simpa [pendingOf] using h9⟩
      rw [h7]
      simp [shallowSizes]
    | dir es2 rb =>
      obtain ⟨h1, h2, h3, h4, h5, h6, h7, h8, h9⟩ := ih s sizes
      simp only [walkEntries]
      refine ⟨h1, by simpa [shallowSizes] using h2,
        by simpa [shallowSizes] using h3,
        by simpa [shallowSyms] using h4,
        by simpa [shallowFails] using h5,
        by simpa [shallowSizes] using h6, ?_,
        by simpa [shallowSizes] using h8, ?_⟩
      · rw [h7]
        simp [shallowSizes]
      · rw [h9]
        simp [pendingOf]
    | file sz ok =>
      cases ok with
      | false =>
        obtain ⟨h1, h2, h3, h4, h5, h6, h7, h8, h9⟩ :=
          ih { s with unreadableEntries := s.unreadableEntries + 1 } sizes
        simp only [walkEntries]
        refine ⟨by simp [h1], by simpa [shallowSizes] using h2,
          by simpa [shallowSizes] using h3,
          by simpa [shallowSyms] using h4, ?_,
          by simpa [shallowSizes] using h6, ?_,
          by simpa [shallowSizes] using h8,
          by simpa [pendingOf] using h9⟩
        · rw [h5]
          simp [shallowFails]
          omega
        · rw [h7]
          simp [shallowSizes]
      | true =>
        obtain ⟨h1, h2, h3, h4, h5, h6, h7, h8, h9⟩ :=
          ih { s with
            fileCount := s.fileCount + 1,
            totalBytes := s.totalBytes + sz,
            largestFileBytes :=
              if s.largestFileBytes < sz then sz else s.largestFileBytes,
            largestFilePath :=
              if s.largestFileBytes < sz then dp ++ "/" ++ nm
              else s.largestFilePath } (sizes ++ [sz])
        simp only [walkEntries]
        have hsh : shallowSizes ((nm, FsNode.file sz true) :: rest) =
            sz :: shallowSizes rest := by
          simp [shallowSizes]
        refine ⟨by simp [h1], ?_, ?_, by simpa [shallowSyms] using h4,
          by simpa [shallowFails] using h5, ?_, ?_, ?_,
          by simpa [pendingOf] using h9⟩
        · rw [h2, hsh]
          simp
          omega
        · rw [h3, hsh]
          simp
          ring
        · rw [h6, hsh]
          simp only [List.foldl_cons, if_lt_max]
        · rw [h7, hsh]
          dsimp only
          constructor
          · rintro ⟨hp, hall⟩
            by_cases hlt : s.largestFileBytes < sz
            · rw [if_pos hlt] at hp
              exact absurd hp (pathJoin_ne dp nm)
            · rw [if_neg hlt] at hp
              refine ⟨hp, ?_⟩
              intro x hx
              rcases List.mem_cons.mp hx with rfl | hx
              · exact not_lt.mp hlt
              · have hx2 := hall x hx
                rwa [if_neg hlt] at hx2
          · rintro ⟨hp, hall⟩
            have hsz : sz ≤ s.largestFileBytes := hall sz (by simp)
            have hlt : ¬ s.largestFileBytes < sz := not_lt.mpr hsz
            refine ⟨by rw [if_neg hlt]; exact hp, ?_⟩
            intro x hx
            rw [if_neg hlt]
            exact hall x (by simp [hx])
        · rw [h8, hsh]
          simp

end Median

namespace Median

theorem walk_spec :
    ∀ (stack : List (String × FsNode)) (s : ScanStats) (sizes : List ℚ),
    (walk stack s sizes).1.dirCount = s.dirCount + stackDirs stack ∧
    (walk stack s sizes).1.fileCount = s.fileCount + (stackSizes stack).length ∧
    (walk stack s sizes).1.totalBytes = s.totalBytes + (stackSizes stack).sum ∧
    (walk stack s sizes).1.skippedSymlinks = s.skippedSymlinks + stackSyms stack ∧
    (walk stack s sizes).1.unreadableEntries =
      s.unreadableEntries + stackFails stack ∧
    (walk stack s sizes).1.largestFileBytes =
      (stackSizes stack).foldl max s.largestFileBytes ∧
    ((walk stack s sizes).1.largestFilePath = "" ↔
      (s.largestFilePath = "" ∧
        ∀ x ∈ stackSizes stack, x ≤ s.largestFileBytes)) := by
  intro stack s sizes
  induction stack, s, sizes using walk.induct with
  | case1 s sizes =>
    rw [walk]
    simp [stackDirs, stackSizes, stackSyms, stackFails]
  | case2 p rest s sizes s1 entries r ih =>
    have hr : r = walkEntries p entries s1 sizes := rfl
    have hs1 : s1 = { s with dirCount := s.dirCount + 1 } := rfl
    rw [hr, hs1] at ih
    obtain ⟨i1, i2, i3, i4, i5, i6, i7⟩ := ih
    obtain ⟨w1, w2, w3, w4, w5, w6, w7, w8, w9⟩ :=
      walkEntries_spec p entries { s with dirCount := s.dirCount + 1 } sizes
    obtain ⟨bs, bf, bd, bz⟩ := entries_bridge p entries
    rw [walk]
    have hpermrev := stackSizes_reverse_perm
      (walkEntries p entries { s with dirCount := s.dirCount + 1 } sizes).pending
    have hcons : stackSizes ((p, FsNode.dir entries true) :: rest) =
        entriesSizes entries ++ stackSizes rest := by
      simp [stackSizes, elemSizes]
    have hconsDirs : stackDirs ((p, FsNode.dir entries true) :: rest) =
        (1 + entriesDirs entries) + stackDirs rest := by
      simp [stackDirs, elemDirs]
    have hconsSyms : stackSyms ((p, FsNode.dir entries true) :: rest) =
        entriesSyms entries + stackSyms rest := by
      simp [stackSyms, elemSyms]
    have hconsFails : stackFails ((p, FsNode.dir entries true) :: rest) =
        entriesFails entries + stackFails rest := by
      simp [stackFails, elemFails]
    have hdc : ({ s with dirCount := s.dirCount + 1 } : ScanStats).dirCount =
        s.dirCount + 1 := rfl
    have hfc : ({ s with dirCount := s.dirCount + 1 } : ScanStats).fileCount =
        s.fileCount := rfl
    have htb : ({ s with dirCount := s.dirCount + 1 } : ScanStats).totalBytes =
        s.totalBytes := rfl
    have hss : ({ s with dirCount := s.dirCount + 1 } :
        ScanStats).skippedSymlinks = s.skippedSymlinks := rfl
    have hue : ({ s with dirCount := s.dirCount + 1 } :
        ScanStats).unreadableEntries = s.unreadableEntries := rfl
    have hlb : ({ s with dirCount := s.dirCount + 1 } :
        ScanStats).largestFileBytes = s.largestFileBytes := rfl
    have hlp : ({ s with dirCount := s.dirCount + 1 } :
        ScanStats).largestFilePath = s.largestFilePath := rfl
    refine ⟨?_, ?_, ?_, ?_, ?_, ?_, ?_⟩
    · rw [i1, w1, hdc, stackDirs_append, stackDirs_reverse, w9, hconsDirs]
      omega
    · rw [i2, w2, hfc, stackSizes_append, List.length_append, hpermrev.length_eq,
        w9, hcons, List.length_append, bz.length_eq, List.length_append]
      omega
    · rw [i3, w3, htb, stackSizes_append, List.sum_append, hpermrev.sum_eq, w9,
        hcons, List.sum_append, bz.sum_eq, List.sum_append]
      ring
    · rw [i4, w4, hss, stackSyms_append, stackSyms_reverse, w9, hconsSyms]
      omega
    · rw [i5, w5, hue, stackFails_append, stackFails_reverse, w9, hconsFails]
      omega
    · rw [i6, w6, hlb, stackSizes_append, List.foldl_append,
        hpermrev.foldl_op_eq, w9, hcons, List.foldl_append, bz.foldl_op_eq,
        List.foldl_append]
    · rw [i7, w7, w6]
      simp only [hlb, hlp]
      have hmem1 : ∀ x : ℚ, x ∈ stackSizes
          ((walkEntries p entries { s with dirCount := s.dirCount + 1 }
            sizes).pending.reverse ++ rest) ↔
          (x ∈ stackSizes (pendingOf p entries) ∨ x ∈ stackSizes rest) := by
        intro x
        rw [stackSizes_append, List.mem_append, hpermrev.mem_iff, w9]
      have hmem2 : ∀ x : ℚ, x ∈ entriesSizes entries ↔
          (x ∈ shallowSizes entries ∨ x ∈ stackSizes (pendingOf p entries)) := by
        intro x
        rw [bz.mem_iff, List.mem_append]
      have hconsm : ∀ x : ℚ,
          x ∈ stackSizes ((p, FsNode.dir entries true) :: rest) ↔
          (x ∈ entriesSizes entries ∨ x ∈ stackSizes rest) := by
        intro x
        rw [hcons, List.mem_append]
      constructor
      · rintro ⟨⟨hp, hsh⟩, hrest⟩
        have hfold : (shallowSizes entries).foldl max s.largestFileBytes =
            s.largestFileBytes := foldlMax_of_le _ _ hsh
        rw [hfold] at hrest
        refine ⟨hp, ?_⟩
        intro x hx
        rcases (hconsm x).mp hx with hx2 | hx2
        · rcases (hmem2 x).mp hx2 with hx3 | hx3
          · exact hsh x hx3
          · exact hrest x ((hmem1 x).mpr (Or.inl hx3))
        · exact hrest x ((hmem1 x).mpr (Or.inr hx2))
      · rintro ⟨hp, hall⟩
        have hsh : ∀ x ∈ shallowSizes entries, x ≤ s.largestFileBytes :=
          fun x hx => hall x ((hconsm x).mpr (Or.inl ((hmem2 x).mpr (Or.inl hx))))
        have hfold := foldlMax_of_le (shallowSizes entries) s.largestFileBytes hsh
        refine ⟨⟨hp, hsh⟩, ?_⟩
        intro x hx
        rw [hfold]
        rcases (hmem1 x).mp hx with hx2 | hx2
        · exact hall x ((hconsm x).mpr (Or.inl ((hmem2 x).mpr (Or.inr hx2))))
        · exact hall x ((hconsm x).mpr (Or.inr hx2))
  | case3 p n rest s sizes s1 hn ih =>
    have hs1 : s1 = { s with dirCount := s.dirCount + 1 } := rfl
    rw [hs1] at ih
    try dsimp only at ih
    obtain ⟨i1, i2, i3, i4, i5, i6, i7⟩ := ih
    have main :
        stackDirs ((p, n) :: rest) = 1 + stackDirs rest →
        stackSizes ((p, n) :: rest) = stackSizes rest →
        stackSyms ((p, n) :: rest) = stackSyms rest →
        stackFails ((p, n) :: rest) = 1 + stackFails rest →
        ((walk rest { s with dirCount := s.dirCount + 1, unreadableEntries := s.unreadableEntries + 1 } sizes).1.dirCount = s.dirCount + stackDirs ((p, n) :: rest) ∧
        (walk rest { s with dirCount := s.dirCount + 1, unreadableEntries := s.unreadableEntries + 1 } sizes).1.fileCount = s.fileCount + (stackSizes ((p, n) :: rest)).length ∧
        (walk rest { s with dirCount := s.dirCount + 1, unreadableEntries := s.unreadableEntries + 1 } sizes).1.totalBytes = s.totalBytes + (stackSizes ((p, n) :: rest)).sum ∧
        (walk rest { s with dirCount := s.dirCount + 1, unreadableEntries := s.unreadableEntries + 1 } sizes).1.skippedSymlinks = s.skippedSymlinks + stackSyms ((p, n) :: rest) ∧
        (walk rest { s with dirCount := s.dirCount + 1, unreadableEntries := s.unreadableEntries + 1 } sizes).1.unreadableEntries = s.unreadableEntries + stackFails ((p, n) :: rest) ∧
        (walk rest { s with dirCount := s.dirCount + 1, unreadableEntries := s.unreadableEntries + 1 } sizes).1.largestFileBytes = (stackSizes ((p, n) :: rest)).foldl max s.largestFileBytes ∧
        ((walk rest { s with dirCount := s.dirCount + 1, unreadableEntries := s.unreadableEntries + 1 } sizes).1.largestFilePath = "" ↔
          (s.largestFilePath = "" ∧
            ∀ x ∈ stackSizes ((p, n) :: rest), x ≤ s.largestFileBytes))) := by
      intro hcons1 hcons2 hcons3 hcons4
      refine ⟨?_, ?_, ?_, ?_, ?_, ?_, ?_⟩
      · rw [i1, hcons1]
        try dsimp only
        omega
      · rw [i2, hcons2]
      · rw [i3, hcons2]
      · rw [i4, hcons3]
      · rw [i5, hcons4]
        try dsimp only
        omega
      · rw [i6, hcons2]
      · rw [i7, hcons2]
    cases n with
    | dir es rb =>
      cases rb with
      | true => exact (hn es rfl).elim
      | false =>
        rw [walk]
        · exact main (by simp [stackDirs, elemDirs])
            (by simp [stackSizes, elemSizes]) (by simp [stackSyms, elemSyms])
            (by simp [stackFails, elemFails])
        · exact hn
    | file sz ok =>
      rw [walk]
      · exact main (by simp [stackDirs, elemDirs])
          (by simp [stackSizes, elemSizes]) (by simp [stackSyms, elemSyms])
          (by simp [stackFails, elemFails])
      · exact hn
    | symlink =>
      rw [walk]
      · exact main (by simp [stackDirs, elemDirs])
          (by simp [stackSizes, elemSizes]) (by simp [stackSyms, elemSyms])
          (by simp [stackFails, elemFails])
      · exact hn
    | other =>
      rw [walk]
      · exact main (by simp [stackDirs, elemDirs])
          (by simp [stackSizes, elemSizes]) (by simp [stackSyms, elemSyms])
          (by simp [stackFails, elemFails])
      · exact hn

end Median

/-! ### `analyzeTarget` claims: C1, C7, C10 -/

theorem analyzeTarget_dir_fields (p : String)
    (es : List (String × Median.FsNode)) (rb : Bool) :
    ∃ s, Median.analyzeTarget p (some (Median.FsNode.dir es rb)) = Except.ok s ∧
      s.dirCount =
        (Median.walk [(p, Median.FsNode.dir es rb)] (Median.initStats p) []).1.dirCount ∧
      s.fileCount =
        (Median.walk [(p, Median.FsNode.dir es rb)] (Median.initStats p) []).1.fileCount ∧
      s.totalBytes =
        (Median.walk [(p, Median.FsNode.dir es rb)] (Median.initStats p) []).1.totalBytes ∧
      s.skippedSymlinks =
        (Median.walk [(p, Median.FsNode.dir es rb)] (Median.initStats p) []).1.skippedSymlinks ∧
      s.unreadableEntries =
        (Median.walk [(p, Median.FsNode.dir es rb)] (Median.initStats p) []).1.unreadableEntries ∧
      s.largestFileBytes =
        (Median.walk [(p, Median.FsNode.dir es rb)] (Median.initStats p) []).1.largestFileBytes ∧
      s.largestFilePath =
        (Median.walk [(p, Median.FsNode.dir es rb)] (Median.initStats p) []).1.largestFilePath := by
  simp only [Median.analyzeTarget]
  by_cases h : 0 <
      (Median.walk [(p, Median.FsNode.dir es rb)] (Median.initStats p) []).2.length
  · rw [if_pos h]
    exact ⟨_, rfl, rfl, rfl, rfl, rfl, rfl, rfl, rfl⟩
  · rw [if_neg h]
    exact ⟨_, rfl, rfl, rfl, rfl, rfl, rfl, rfl, rfl⟩

/-- C1: `analyzeTarget` can fail only at the initial root lookup — a missing
root raises the not-found error, a root that is neither file, directory nor
symlink raises the invalid-target error, and for every other root the call
returns `ok`, with every filesystem failure inside the traversal absorbed
into `unreadableEntries` (counted exactly by `rootFails`). -/
theorem C1_analyzeTarget_errors_only_at_root (p : String)
    (root : Option Median.FsNode) :
    (root = none →
      Median.analyzeTarget p root =
        Except.error (Median.AnalyzeError.targetNotFound p)) ∧
    (root = some Median.FsNode.other →
      Median.analyzeTarget p root =
        Except.error Median.AnalyzeError.invalidTargetType) ∧
    (∀ n, root = some n → n ≠ Median.FsNode.other →
      ∃ s, Median.analyzeTarget p root = Except.ok s ∧
        s.unreadableEntries = Median.rootFails n) := by
  refine ⟨?_, ?_, ?_⟩
  · rintro rfl
    rfl
  · rintro rfl
    rfl
  · rintro n rfl hn
    match n with
    | .symlink => exact ⟨_, rfl, rfl⟩
    | .file sz ok => exact ⟨_, rfl, rfl⟩
    | .other => exact absurd rfl hn
    | .dir es rb =>
      obtain ⟨s, hok, hdc, hfc, htb, hss, hue, hlb, hlp⟩ :=
        analyzeTarget_dir_fields p es rb
      obtain ⟨v1, v2, v3, v4, v5, v6, v7⟩ :=
        Median.walk_spec [(p, Median.FsNode.dir es rb)] (Median.initStats p) []
      refine ⟨s, hok, ?_⟩
      rw [hue, v5]
      cases rb with
      | true =>
        simp [Median.initStats, Median.stackFails, Median.elemFails,
          Median.rootFails]
      | false =>
        simp [Median.initStats, Median.stackFails, Median.elemFails,
          Median.rootFails]

theorem C1_analyzeTarget_errors_only_at_root_witness :
    Median.analyzeTarget "x" none =
      Except.error (Median.AnalyzeError.targetNotFound "x") :=
  (C1_analyzeTarget_errors_only_at_root "x" none).1 rfl

/-- C7: symbolic links anywhere in the tree are excluded from `fileCount`
and `totalBytes` and each increments `skippedSymlinks`; a symlink root is
recorded as skipped and yields zeroed stats. -/
theorem C7_symlinks_skipped_and_excluded (p : String) :
    (∃ s, Median.analyzeTarget p (some Median.FsNode.symlink) = Except.ok s ∧
      s.skippedSymlinks = 1 ∧ s.fileCount = 0 ∧ s.dirCount = 0 ∧
      s.totalBytes = 0 ∧ s.largestFileBytes = 0) ∧
    (∀ es, ∃ s,
      Median.analyzeTarget p (some (Median.FsNode.dir es true)) = Except.ok s ∧
      s.skippedSymlinks = Median.entriesSyms es ∧
      s.fileCount = (Median.entriesSizes es).length ∧
      s.totalBytes = (Median.entriesSizes es).sum) := by
  constructor
  · exact ⟨_, rfl, rfl, rfl, rfl, rfl, rfl⟩
  · intro es
    obtain ⟨s, hok, hdc, hfc, htb, hss, hue, hlb, hlp⟩ :=
      analyzeTarget_dir_fields p es true
    obtain ⟨v1, v2, v3, v4, v5, v6, v7⟩ :=
      Median.walk_spec [(p, Median.FsNode.dir es true)] (Median.initStats p) []
    refine ⟨s, hok, ?_, ?_, ?_⟩
    · rw [hss, v4]
      simp [Median.initStats, Median.stackSyms, Median.elemSyms]
    · rw [hfc, v2]
      simp [Median.initStats, Median.stackSizes, Median.elemSizes]
    · rw [htb, v3]
      simp [Median.initStats, Median.stackSizes, Median.elemSizes]

/-- C10: for a directory root, `largestFilePath` is set exactly when some
reachable file has size strictly greater than zero (an empty path makes the
CLI print `Largest file: N/A`); for a regular-file root, `largestFilePath`
is always the target path, even for a zero-byte file. -/
theorem C10_largestFilePath_positive_size (p : String) :
    (∀ es, ∃ s,
      Median.analyzeTarget p (some (Median.FsNode.dir es true)) = Except.ok s ∧
      (s.largestFilePath = "" ↔ ∀ x ∈ Median.entriesSizes es, x ≤ 0) ∧
      (s.largestFilePath = "" →
        Median.largestFileLine s = "Largest file: N/A")) ∧
    (∀ (size : ℚ) (ok : Bool), ∃ s,
      Median.analyzeTarget p (some (Median.FsNode.file size ok)) = Except.ok s ∧
      s.largestFilePath = p) := by
  constructor
  · intro es
    obtain ⟨s, hok, hdc, hfc, htb, hss, hue, hlb, hlp⟩ :=
      analyzeTarget_dir_fields p es true
    obtain ⟨v1, v2, v3, v4, v5, v6, v7⟩ :=
      Median.walk_spec [(p, Median.FsNode.dir es true)] (Median.initStats p) []
    refine ⟨s, hok, ?_, ?_⟩
    · rw [hlp, v7]
      simp [Median.initStats, Median.stackSizes, Median.elemSizes]
    · intro hp
      simp [Median.largestFileLine, hp]
  · intro size ok
    exact ⟨_, rfl, rfl⟩

theorem C10_largestFilePath_positive_size_witness :
    ∃ s, Median.analyzeTarget "t" (some (Median.FsNode.file 0 true)) =
      Except.ok s ∧ s.largestFilePath = "t" :=
  (C10_largestFilePath_positive_size "t").2 0 true
